import Mathlib

/-!
Verification of the `bacon-rajan-cc` reference-counting library (`src/lib.rs`).

The library provides a thread-local strong handle `Cc<T>` and a weak handle
`Weak<T>` over a shared heap block `CcBox<T> { value, strong, weak }`.  We give
a shallow embedding: the block is a Lean structure whose `value` field is an
`Option T` (`none` models the storage after `ptr::read` has destroyed the
payload in place), counters are `Nat` (the `usize` cells; decrements are
guarded by the handle-existence hypotheses that rule out underflow, exactly
the contract stated by the library), and deallocation of the block is
modelled by `Option (CcBox T)` turning to `none`.  Handles are units of the
counters; a trace semantics over abstract states records how many strong and
weak handles are live, so that reachability claims quantify over arbitrary
sequences of `new` / `clone` / `downgrade` / `upgrade` / `drop` operations.
-/

/-- The shared heap block `CcBox<T>` from the source: the payload plus the two
reference counters.  `value` is `some v` while the payload is alive and `none`
once the payload has been destroyed in place (`ptr::read` in `Cc::drop`). -/
structure CcBox (T : Type) where
  value : Option T
  strong : Nat
  weak : Nat
deriving DecidableEq

namespace CcBox

variable {T : Type}

/-- Counter protocol `strong()`: read the strong counter. -/
def strongCnt (b : CcBox T) : Nat := b.strong

/-- Counter protocol `weak()`: read the weak counter. -/
def weakCnt (b : CcBox T) : Nat := b.weak

/-- Counter protocol `inc_strong()`: `strong.set(strong.get() + 1)`. -/
def inc_strong (b : CcBox T) : CcBox T := { b with strong := b.strong + 1 }

/-- Counter protocol `dec_strong()`: `strong.set(strong.get() - 1)`. -/
def dec_strong (b : CcBox T) : CcBox T := { b with strong := b.strong - 1 }

/-- Counter protocol `inc_weak()`: `weak.set(weak.get() + 1)`. -/
def inc_weak (b : CcBox T) : CcBox T := { b with weak := b.weak + 1 }

/-- Counter protocol `dec_weak()`: `weak.set(weak.get() - 1)`. -/
def dec_weak (b : CcBox T) : CcBox T := { b with weak := b.weak - 1 }

end CcBox

namespace Cc

variable {T : Type}

/-- Constructor `Cc::new(value)`: allocate a fresh block with `strong = 1`, `weak = 1`
(the implicit weak owned collectively by the strong handles). -/
def new (v : T) : CcBox T := { value := some v, strong := 1, weak := 1 }

/-- Cloning, `<Cc as Clone>::clone`: `inc_strong`, handle points at the same block. -/
def clone (b : CcBox T) : CcBox T := b.inc_strong

/-- Downgrading, `Cc::downgrade`: `inc_weak`, producing a weak handle to the same block. -/
def downgrade (b : CcBox T) : CcBox T := b.inc_weak

/-- The body of `<Cc<T> as Drop>::drop` (the non-sentinel path: the pointer
null / `POST_DROP_USIZE` test guards the drop-flag mechanism against double
drops, which the semantics excludes by construction): `dec_strong`; if the new
`strong` is `0`, destroy the payload in place, `dec_weak` (the implicit weak),
and if the new `weak` is `0`, deallocate the block (`none`). -/
def drop (b : CcBox T) : Option (CcBox T) :=
  let b1 := b.dec_strong
  if b1.strong = 0 then
    let b2 : CcBox T := { b1 with value := none }
    let b3 := b2.dec_weak
    if b3.weak = 0 then none else some b3
  else some b1

end Cc

/-- The atomic effects performed by `<Cc<T> as Drop>::drop`, in the order the
source performs them. -/
inductive DropStep where
  | decStrong
  | destroyValue
  | decWeak
  | deallocate
deriving DecidableEq

namespace Cc

variable {T : Type}

/-- The body of `<Cc<T> as Drop>::drop` again, instrumented with the list of effects in
the order the source code performs them.  The state component agrees with
`Cc.drop` (`Cc.fst_dropEvents`). -/
def dropEvents (b : CcBox T) : Option (CcBox T) × List DropStep :=
  let b1 := b.dec_strong
  if b1.strong = 0 then
    let b2 : CcBox T := { b1 with value := none }
    let b3 := b2.dec_weak
    if b3.weak = 0 then
      (none, [DropStep.decStrong, DropStep.destroyValue, DropStep.decWeak,
              DropStep.deallocate])
    else
      (some b3, [DropStep.decStrong, DropStep.destroyValue, DropStep.decWeak])
  else (some b1, [DropStep.decStrong])

end Cc

namespace Weak

variable {T : Type}

/-- Cloning a weak handle, `<Weak as Clone>::clone`: `inc_weak`. -/
def clone (b : CcBox T) : CcBox T := b.inc_weak

/-- Upgrading, `Weak::upgrade`: if `strong() == 0` return `None` and leave the block
untouched; otherwise `inc_strong` and return a strong handle (modelled by
`some ()`) to the same block. -/
def upgrade (b : CcBox T) : Option Unit × CcBox T :=
  if b.strongCnt = 0 then (none, b) else (some (), b.inc_strong)

/-- The body of `<Weak<T> as Drop>::drop` (non-sentinel path): `dec_weak`;
if the new `weak` is `0`, deallocate the block. -/
def drop (b : CcBox T) : Option (CcBox T) :=
  let b1 := b.dec_weak
  if b1.weak = 0 then none else some b1

end Weak

section DerivedOps

variable {T : Type}

/-- Free function `weak_count`: `this.weak() - 1`, subtracting the implicit
weak unit so observers see only externally created weak handles. -/
def weak_count (b : CcBox T) : Nat := b.weakCnt - 1

/-- Free function `strong_count`: `this.strong()`. -/
def strong_count (b : CcBox T) : Nat := b.strongCnt

/-- Free function `is_unique`: `weak_count(rc) == 0 && strong_count(rc) == 1`. -/
def is_unique (b : CcBox T) : Bool := weak_count b == 0 && strong_count b == 1

/-- Free function `try_unwrap(rc)`.  If unique: read the payload out, free the
block directly and skip the normal drop bookkeeping, returning `Ok(value)`;
the pair's second component is the block's state afterwards (`none` =
deallocated).  Otherwise `Err(rc)` with the block untouched. -/
def try_unwrap (b : CcBox T) : (Option T ⊕ CcBox T) × Option (CcBox T) :=
  if is_unique b then (Sum.inl b.value, none) else (Sum.inr b, some b)

/-- Free function `get_mut(rc)`: expose the payload for mutation only when
unique. -/
def get_mut (b : CcBox T) : Option (Option T) :=
  if is_unique b then some b.value else none

/-- The copy-on-write operation `Cc::make_unique` for a payload with `Clone` (duplication of a pure value
is the value itself): if the handle is not unique, `*self = Cc::new(clone)`
allocates a fresh block holding a duplicate of the payload and drops the old
handle (running `Cc::drop` on the original block).  Result: the block the
handle refers to afterwards, paired with `some` of the original block's state
after that drop when a fresh block was allocated, and `none` when the handle
was already unique (no new allocation). -/
def make_unique (b : CcBox T) : CcBox T × Option (Option (CcBox T)) :=
  if is_unique b then (b, none)
  else ({ value := b.value, strong := 1, weak := 1 }, some (Cc.drop b))

/-- Writing through the `&mut T` returned by `make_unique` / `get_mut`:
replace the payload. -/
def setValue (b : CcBox T) (v : T) : CcBox T := { b with value := some v }

/-- An observer call on a shared reference, paired with the state of the block
when the call returns: `strong_count` only reads the `strong` cell. -/
def strong_countCall (b : CcBox T) : Nat × CcBox T := (strong_count b, b)

/-- Observer call for `weak_count`: reads the `weak` cell only. -/
def weak_countCall (b : CcBox T) : Nat × CcBox T := (weak_count b, b)

/-- Observer call for `is_unique`: reads both cells, writes nothing. -/
def is_uniqueCall (b : CcBox T) : Bool × CcBox T := (is_unique b, b)

end DerivedOps

/-! ### Trace semantics

Abstract state of one shared block together with the multiset sizes of the
live handles pointing at it.  Each operation of the public API is enabled
only when the caller actually holds a handle of the right kind; `stepOp`
returns `none` for an inadmissible operation. -/

/-- One shared block plus the numbers of live strong and weak handles. -/
structure HeapSt (T : Type) where
  block : Option (CcBox T)
  nStrong : Nat
  nWeak : Nat
deriving DecidableEq

/-- The public operations on a shared block after its construction. -/
inductive Op where
  | cloneStrong
  | downgrade
  | weakClone
  | upgradeOp
  | dropStrong
  | dropWeak
deriving DecidableEq

section Trace

variable {T : Type}

/-- State right after `Cc::new(v)`: one strong handle, no weak handles. -/
def initSt (v : T) : HeapSt T := { block := some (Cc.new v), nStrong := 1, nWeak := 0 }

/-- One operation of the public API, applied to the state.  `none` when the
operation is not admissible (the caller holds no handle of the required
kind). -/
def stepOp (s : HeapSt T) (op : Op) : Option (HeapSt T) :=
  match s.block with
  | none => none
  | some b =>
    match op with
    | Op.cloneStrong =>
        if 1 ≤ s.nStrong then
          some { block := some (Cc.clone b), nStrong := s.nStrong + 1, nWeak := s.nWeak }
        else none
    | Op.downgrade =>
        if 1 ≤ s.nStrong then
          some { block := some (Cc.downgrade b), nStrong := s.nStrong, nWeak := s.nWeak + 1 }
        else none
    | Op.weakClone =>
        if 1 ≤ s.nWeak then
          some { block := some (Weak.clone b), nStrong := s.nStrong, nWeak := s.nWeak + 1 }
        else none
    | Op.upgradeOp =>
        if 1 ≤ s.nWeak then
          some (if b.strongCnt = 0 then s
                else { block := some ((Weak.upgrade b).2), nStrong := s.nStrong + 1,
                       nWeak := s.nWeak })
        else none
    | Op.dropStrong =>
        if 1 ≤ s.nStrong then
          some { block := Cc.drop b, nStrong := s.nStrong - 1, nWeak := s.nWeak }
        else none
    | Op.dropWeak =>
        if 1 ≤ s.nWeak then
          some { block := Weak.drop b, nStrong := s.nStrong, nWeak := s.nWeak - 1 }
        else none

/-- Run a sequence of operations; `none` as soon as one is inadmissible. -/
def runOps (s : HeapSt T) : List Op → Option (HeapSt T)
  | [] => some s
  | op :: ops =>
    match stepOp s op with
    | none => none
    | some s' => runOps s' ops

/-- The strong counter as observed from outside; `0` once deallocated. -/
def strongOf (s : HeapSt T) : Nat :=
  match s.block with
  | some b => b.strong
  | none => 0

/-- The weak counter as observed from outside; `0` once deallocated. -/
def weakOf (s : HeapSt T) : Nat :=
  match s.block with
  | some b => b.weak
  | none => 0

/-- The payload has been destroyed (or the whole block is gone). -/
def destroyed (s : HeapSt T) : Bool :=
  match s.block with
  | some b => b.value.isNone
  | none => true

/-- The block has been deallocated. -/
def deallocated (s : HeapSt T) : Bool := s.block.isNone

/-- The inductive invariant of the trace semantics: the strong counter counts
the live strong handles, the weak counter counts the live weak handles plus
the implicit weak unit held while `strong > 0`, the payload is alive exactly
while `strong > 0`, a block that still exists has `weak ≥ 1` and at least one
live handle, and a deallocated block has no handles at all. -/
def BlockInv (s : HeapSt T) : Prop :=
  match s.block with
  | some b =>
      b.strong = s.nStrong ∧
      b.weak = s.nWeak + (if 0 < s.nStrong then 1 else 0) ∧
      1 ≤ s.nStrong + s.nWeak ∧
      (b.value.isSome ↔ 0 < b.strong)
  | none => s.nStrong = 0 ∧ s.nWeak = 0

end Trace

/-! ### Claim statements

The properties the specification claims, phrased over the embedded
operations; the theorems below establish them. -/

/-- Position of a drop effect in the mandatory order of `Cc::drop`:
decrement strong, destroy the payload, decrement weak, deallocate. -/
def dropRank : DropStep → Nat
  | DropStep.decStrong => 0
  | DropStep.destroyValue => 1
  | DropStep.decWeak => 2
  | DropStep.deallocate => 3

/-- What the specification claims of `<Cc<T> as Drop>::drop`: the strong
counter is decremented first; the payload is destroyed exactly when the new
strong count is `0`; only then is the weak counter decremented (the implicit
weak); the block is deallocated exactly when, after that, the weak count is
`0`; the effects happen in exactly that order; and the resulting block state
reflects the decrements, with payload and weak counter untouched when the
handle was not the last strong one. -/
def CcDropSpec {T : Type} (b : CcBox T) : Prop :=
  (Cc.dropEvents b).2.head? = some DropStep.decStrong ∧
  (DropStep.destroyValue ∈ (Cc.dropEvents b).2 ↔ b.strong = 1) ∧
  (DropStep.decWeak ∈ (Cc.dropEvents b).2 ↔ b.strong = 1) ∧
  (DropStep.deallocate ∈ (Cc.dropEvents b).2 ↔ b.strong = 1 ∧ b.weak = 1) ∧
  List.Chain' (fun x y => dropRank x < dropRank y) (Cc.dropEvents b).2 ∧
  (Cc.dropEvents b).1 = Cc.drop b ∧
  (Cc.drop b = none ↔ b.strong = 1 ∧ b.weak = 1) ∧
  (∀ b' : CcBox T, Cc.drop b = some b' →
    b'.strong = b.strong - 1 ∧
    (b.strong = 1 → b'.value = none ∧ b'.weak = b.weak - 1) ∧
    (2 ≤ b.strong → b'.value = b.value ∧ b'.weak = b.weak))

/-- What the specification claims of each transition of the shared block:
the payload is destroyed in a step exactly when the strong counter goes from
`1` to `0` in that step; the block is deallocated in a step exactly when the
weak counter goes from `1` to `0` in that step; destruction is irreversible
(so it happens at most once along a trace); no step starts from a
deallocated block (so deallocation is terminal and happens at most once);
and a deallocating step starts either from a block whose payload is already
destroyed or is itself the step that destroys it (inside which `Cc::drop`
orders destruction before deallocation, see `CcDropSpec`). -/
def LifecycleSpec {T : Type} (s s' : HeapSt T) : Prop :=
  ((destroyed s = false ∧ destroyed s' = true) ↔ strongOf s = 1 ∧ strongOf s' = 0) ∧
  ((deallocated s = false ∧ deallocated s' = true) ↔ weakOf s = 1 ∧ weakOf s' = 0) ∧
  (destroyed s = true → destroyed s' = true) ∧
  deallocated s = false ∧
  (deallocated s' = true → destroyed s = true ∨ (strongOf s = 1 ∧ strongOf s' = 0))

/-- What the specification claims of `make_unique` on a non-unique handle
whose payload is `v`: the handle now refers to a fresh block with
`strong = 1`, `weak = 1` holding a duplicate of `v`; writing any `v'`
through the returned reference only changes that fresh block; and when a
sibling strong handle exists (`2 ≤ strong`), the original block survives
with its payload still `v` and only its strong counter decremented. -/
def MakeUniqueSpec {T : Type} (b : CcBox T) (v : T) : Prop :=
  (make_unique b).1 = { value := some v, strong := 1, weak := 1 } ∧
  (∀ v' : T, (setValue (make_unique b).1 v').value = some v' ∧
             (setValue (make_unique b).1 v').strong = 1 ∧
             (setValue (make_unique b).1 v').weak = 1) ∧
  (2 ≤ b.strong →
    (make_unique b).2 =
      some (some { value := some v, strong := b.strong - 1, weak := b.weak }))

/-- What the specification claims of `Weak::upgrade`: nothing is returned
exactly when the strong counter is `0` at the moment of the call (the check
is a pure function of the current counter, so it is re-performed on every
call); otherwise a strong handle to the same block is produced and the
strong counter is incremented by exactly one, with the weak counter and the
payload untouched. -/
def UpgradeSpec {T : Type} (b : CcBox T) : Prop :=
  ((Weak.upgrade b).1 = none ↔ b.strong = 0) ∧
  (b.strong = 0 → (Weak.upgrade b).2 = b) ∧
  (0 < b.strong →
    (Weak.upgrade b).1 = some () ∧
    (Weak.upgrade b).2.strong = b.strong + 1 ∧
    (Weak.upgrade b).2.weak = b.weak ∧
    (Weak.upgrade b).2.value = b.value)

/-- What the specification claims of `try_unwrap` on a handle whose payload
is `v`: on a unique handle it returns the payload (not a destroyed remnant)
and the block is gone; on a non-unique handle it returns the very same
handle and the block persists unchanged, counters included. -/
def TryUnwrapSpec {T : Type} (b : CcBox T) (v : T) : Prop :=
  (is_unique b = true → try_unwrap b = (Sum.inl (some v), none)) ∧
  (is_unique b = false → try_unwrap b = (Sum.inr b, some b))

/-- What the specification claims of producing a handle and immediately
dropping it: cloning then dropping the clone, downgrading then dropping the
weak handle, and successfully upgrading then dropping the produced strong
handle all return the block to exactly its previous state — nothing is
destroyed or deallocated. -/
def RoundTripSpec {T : Type} (b : CcBox T) : Prop :=
  Cc.drop (Cc.clone b) = some b ∧
  Weak.drop (Cc.downgrade b) = some b ∧
  (Weak.upgrade b).1 = some () ∧
  Cc.drop ((Weak.upgrade b).2) = some b

/-! ### Helper lemmas -/

/-- The function `Cc.drop` written as nested conditionals on the decremented counters. -/
theorem Cc.drop_if_form {T : Type} (b : CcBox T) :
    Cc.drop b =
      if b.strong - 1 = 0 then
        if b.weak - 1 = 0 then none
        else some { value := none, strong := b.strong - 1, weak := b.weak - 1 }
      else some { b with strong := b.strong - 1 } := rfl

/-- The function `Weak.drop` written as a conditional on the decremented counter. -/
theorem Weak.dropw_if_form {T : Type} (b : CcBox T) :
    Weak.drop b =
      if b.weak - 1 = 0 then none else some { b with weak := b.weak - 1 } := rfl

/-- The state component of the instrumented drop agrees with `Cc.drop`. -/
theorem Cc.fst_dropEvents {T : Type} (b : CcBox T) :
    (Cc.dropEvents b).1 = Cc.drop b := by
  simp only [Cc.dropEvents, Cc.drop]
  split
  · split <;> rfl
  · rfl

/-- The initial state satisfies the block invariant. -/
theorem blockInv_initSt {T : Type} (v : T) : BlockInv (initSt v) := by
  simp [BlockInv, initSt, Cc.new]

/-- Every admissible operation preserves the block invariant. -/
theorem blockInv_stepOp {T : Type} {s s' : HeapSt T} {op : Op}
    (hInv : BlockInv s) (h : stepOp s op = some s') : BlockInv s' := by
  obtain ⟨ob, ns, nw⟩ := s
  cases ob with
  | none => simp [stepOp] at h
  | some b =>
    obtain ⟨bv, bs, bw⟩ := b
    simp only [BlockInv] at hInv
    obtain ⟨h1, h2, h3, h4⟩ := hInv
    cases op with
    | cloneStrong =>
      simp only [stepOp] at h
      split at h
      case isTrue hg =>
        simp only [Cc.clone, CcBox.inc_strong, Option.some.injEq] at h
        subst h
        simp only [BlockInv]
        refine ⟨by omega, ?_, by omega, ?_⟩
        · split at h2 <;> split <;> omega
        · rw [h4]; omega
      case isFalse hg => exact Option.noConfusion h
    | downgrade =>
      simp only [stepOp] at h
      split at h
      case isTrue hg =>
        simp only [Cc.downgrade, CcBox.inc_weak, Option.some.injEq] at h
        subst h
        simp only [BlockInv]
        refine ⟨by omega, ?_, by omega, by rw [h4]⟩
        split at h2 <;> split <;> omega
      case isFalse hg => exact Option.noConfusion h
    | weakClone =>
      simp only [stepOp] at h
      split at h
      case isTrue hg =>
        simp only [Weak.clone, CcBox.inc_weak, Option.some.injEq] at h
        subst h
        simp only [BlockInv]
        refine ⟨by omega, ?_, by omega, by rw [h4]⟩
        split at h2 <;> split <;> omega
      case isFalse hg => exact Option.noConfusion h
    | upgradeOp =>
      simp only [stepOp, CcBox.strongCnt] at h
      split at h
      case isTrue hg =>
        by_cases hbs : bs = 0
        · subst hbs
          rw [if_pos rfl] at h
          simp only [Option.some.injEq] at h
          subst h
          simp only [BlockInv]
          exact ⟨h1, h2, h3, h4⟩
        · rw [if_neg hbs] at h
          simp only [Weak.upgrade, CcBox.strongCnt, if_neg hbs, CcBox.inc_strong,
            Option.some.injEq] at h
          subst h
          simp only [BlockInv]
          refine ⟨by omega, ?_, by omega, ?_⟩
          · split at h2 <;> split <;> omega
          · rw [h4]; omega
      case isFalse hg => exact Option.noConfusion h
    | dropStrong =>
      simp only [stepOp, Cc.drop_if_form] at h
      split at h
      case isTrue hg =>
        split at h
        case isTrue hA =>
          split at h
          case isTrue hB =>
            simp only [Option.some.injEq] at h
            subst h
            simp only [BlockInv]
            split at h2 <;> exact ⟨by omega, by omega⟩
          case isFalse hB =>
            simp only [Option.some.injEq] at h
            subst h
            simp only [BlockInv]
            refine ⟨by omega, ?_, by split at h2 <;> omega, by simp; omega⟩
            split at h2 <;> split <;> omega
        case isFalse hA =>
          simp only [Option.some.injEq] at h
          subst h
          simp only [BlockInv]
          refine ⟨by omega, ?_, by split at h2 <;> omega, ?_⟩
          · split at h2 <;> split <;> omega
          · rw [h4]; omega
      case isFalse hg => exact Option.noConfusion h
    | dropWeak =>
      simp only [stepOp, Weak.dropw_if_form] at h
      split at h
      case isTrue hg =>
        split at h
        case isTrue hA =>
          simp only [Option.some.injEq] at h
          subst h
          simp only [BlockInv]
          split at h2 <;> exact ⟨by omega, by omega⟩
        case isFalse hA =>
          simp only [Option.some.injEq] at h
          subst h
          simp only [BlockInv]
          refine ⟨by omega, ?_, by split at h2 <;> omega, by rw [h4]⟩
          split at h2 <;> split <;> omega
      case isFalse hg => exact Option.noConfusion h

/-- Each admissible step from a state satisfying the block invariant
satisfies the lifecycle transition property. -/
theorem lifecycleSpec_stepOp {T : Type} {s s' : HeapSt T} {op : Op}
    (hInv : BlockInv s) (h : stepOp s op = some s') : LifecycleSpec s s' := by
  obtain ⟨ob, ns, nw⟩ := s
  cases ob with
  | none => simp [stepOp] at h
  | some b =>
    obtain ⟨bv, bs, bw⟩ := b
    simp only [BlockInv] at hInv
    obtain ⟨h1, h2, h3, h4⟩ := hInv
    have h5 : (bv.isNone = true) ↔ bs = 0 := by
      cases bv <;> simp_all <;> omega
    have h6 : (bv.isNone = false) ↔ 0 < bs := by
      cases bv <;> simp_all <;> omega
    cases op with
    | cloneStrong =>
      simp only [stepOp] at h
      split at h
      case isTrue hg =>
        simp only [Cc.clone, CcBox.inc_strong, Option.some.injEq] at h
        subst h
        simp only [LifecycleSpec, destroyed, deallocated, strongOf, weakOf]
        simp [h5, h6]
        omega
      case isFalse hg => exact Option.noConfusion h
    | downgrade =>
      simp only [stepOp] at h
      split at h
      case isTrue hg =>
        simp only [Cc.downgrade, CcBox.inc_weak, Option.some.injEq] at h
        subst h
        simp only [LifecycleSpec, destroyed, deallocated, strongOf, weakOf]
        simp [h5, h6]
        omega
      case isFalse hg => exact Option.noConfusion h
    | weakClone =>
      simp only [stepOp] at h
      split at h
      case isTrue hg =>
        simp only [Weak.clone, CcBox.inc_weak, Option.some.injEq] at h
        subst h
        simp only [LifecycleSpec, destroyed, deallocated, strongOf, weakOf]
        simp [h5, h6]
        omega
      case isFalse hg => exact Option.noConfusion h
    | upgradeOp =>
      simp only [stepOp, CcBox.strongCnt] at h
      split at h
      case isTrue hg =>
        by_cases hbs : bs = 0
        · subst hbs
          rw [if_pos rfl] at h
          simp only [Option.some.injEq] at h
          subst h
          simp only [LifecycleSpec, destroyed, deallocated, strongOf, weakOf]
          simp [h5, h6]
          omega
        · rw [if_neg hbs] at h
          simp only [Weak.upgrade, CcBox.strongCnt, if_neg hbs, CcBox.inc_strong,
            Option.some.injEq] at h
          subst h
          simp only [LifecycleSpec, destroyed, deallocated, strongOf, weakOf]
          simp [h5, h6]
          omega
      case isFalse hg => exact Option.noConfusion h
    | dropStrong =>
      simp only [stepOp, Cc.drop_if_form] at h
      split at h
      case isTrue hg =>
        split at h
        case isTrue hA =>
          split at h
          case isTrue hB =>
            simp only [Option.some.injEq] at h
            subst h
            simp only [LifecycleSpec, destroyed, deallocated, strongOf, weakOf]
            simp [h5, h6]
            split at h2 <;> omega
          case isFalse hB =>
            simp only [Option.some.injEq] at h
            subst h
            simp only [LifecycleSpec, destroyed, deallocated, strongOf, weakOf]
            simp [h5, h6]
            split at h2 <;> omega
        case isFalse hA =>
          simp only [Option.some.injEq] at h
          subst h
          simp only [LifecycleSpec, destroyed, deallocated, strongOf, weakOf]
          simp [h5, h6]
          split at h2 <;> omega
      case isFalse hg => exact Option.noConfusion h
    | dropWeak =>
      simp only [stepOp, Weak.dropw_if_form] at h
      split at h
      case isTrue hg =>
        split at h
        case isTrue hA =>
          simp only [Option.some.injEq] at h
          subst h
          simp only [LifecycleSpec, destroyed, deallocated, strongOf, weakOf]
          simp [h5, h6]
          split at h2 <;> omega
        case isFalse hA =>
          simp only [Option.some.injEq] at h
          subst h
          simp only [LifecycleSpec, destroyed, deallocated, strongOf, weakOf]
          simp [h5, h6]
          split at h2 <;> omega
      case isFalse hg => exact Option.noConfusion h

/-- Running any admissible sequence of operations preserves the invariant. -/
theorem blockInv_runOps {T : Type} {s s' : HeapSt T} {ops : List Op}
    (hInv : BlockInv s) (h : runOps s ops = some s') : BlockInv s' := by
  induction ops generalizing s with
  | nil =>
    simp only [runOps, Option.some.injEq] at h
    exact h ▸ hInv
  | cons op ops ih =>
    simp only [runOps] at h
    cases hst : stepOp s op with
    | none => rw [hst] at h; exact Option.noConfusion h
    | some s1 => rw [hst] at h; exact ih (blockInv_stepOp hInv hst) h

/-! ### Claim theorems -/

/-- Claim C1: when a strong handle is dropped, the strong counter is
decremented by one; if the new strong count is `0`, the payload is destroyed
in place, then the weak counter is decremented (releasing the implicit
weak), and then, only if the weak count is now `0`, the block is
deallocated — in exactly that order, each later step only under its guard. -/
theorem cc_drop_ordered {T : Type} (b : CcBox T) (hs : 1 ≤ b.strong)
    (hw : 1 ≤ b.weak) : CcDropSpec b := by
  obtain ⟨bv, bs, bw⟩ := b
  have hs' : 1 ≤ bs := hs
  have hw' : 1 ≤ bw := hw
  simp only [CcDropSpec]
  rcases (by omega : bs = 1 ∨ 2 ≤ bs) with hbs | hbs
  · subst hbs
    rcases (by omega : bw = 1 ∨ 2 ≤ bw) with hbw | hbw
    · subst hbw
      have he : Cc.dropEvents (⟨bv, 1, 1⟩ : CcBox T) =
          (none, [DropStep.decStrong, DropStep.destroyValue, DropStep.decWeak,
                  DropStep.deallocate]) := rfl
      refine ⟨?_, ?_, ?_, ?_, ?_, ?_, ?_, ?_⟩
      · simp [he]
      · simp [he]
      · simp [he]
      · simp [he]
      · simp [he, List.chain'_cons, dropRank]
      · rw [Cc.fst_dropEvents]
      · simp [Cc.drop_if_form]
      · intro b' hb
        simp [Cc.drop_if_form] at hb
    · have h0 : ¬(bw - 1 = 0) := by omega
      have he : Cc.dropEvents (⟨bv, 1, bw⟩ : CcBox T) =
          (some ⟨none, 0, bw - 1⟩,
           [DropStep.decStrong, DropStep.destroyValue, DropStep.decWeak]) := by
        simp [Cc.dropEvents, CcBox.dec_strong, CcBox.dec_weak, h0]
      have hd : Cc.drop (⟨bv, 1, bw⟩ : CcBox T) = some ⟨none, 0, bw - 1⟩ := by
        rw [Cc.drop_if_form]
        simp [h0]
      refine ⟨?_, ?_, ?_, ?_, ?_, ?_, ?_, ?_⟩
      · simp [he]
      · simp [he]
      · simp [he]
      · simp [he]
        omega
      · simp [he, List.chain'_cons, dropRank]
      · rw [Cc.fst_dropEvents]
      · simp [hd]
        omega
      · intro b' hb
        rw [hd] at hb
        injection hb with hb
        subst hb
        exact ⟨rfl, fun _ => ⟨rfl, rfl⟩, fun hcon => absurd hcon (by omega)⟩
  · have h0 : ¬(bs - 1 = 0) := by omega
    have he : Cc.dropEvents (⟨bv, bs, bw⟩ : CcBox T) =
        (some ⟨bv, bs - 1, bw⟩, [DropStep.decStrong]) := by
      simp [Cc.dropEvents, CcBox.dec_strong, h0]
    have hd : Cc.drop (⟨bv, bs, bw⟩ : CcBox T) = some ⟨bv, bs - 1, bw⟩ := by
      rw [Cc.drop_if_form]
      simp [h0]
    refine ⟨?_, ?_, ?_, ?_, ?_, ?_, ?_, ?_⟩
    · simp [he]
    · simp [he]
      omega
    · simp [he]
      omega
    · simp [he]
      omega
    · simp [he]
    · rw [Cc.fst_dropEvents]
    · simp [hd]
      omega
    · intro b' hb
      rw [hd] at hb
      injection hb with hb
      subst hb
      exact ⟨rfl, fun h1 => absurd h1 (by omega), fun _ => ⟨rfl, rfl⟩⟩

/-- Witness for `cc_drop_ordered` at a block with two strong handles and one
external weak handle. -/
theorem cc_drop_ordered_witness :
    1 ≤ (⟨some 5, 2, 2⟩ : CcBox Nat).strong ∧
    1 ≤ (⟨some 5, 2, 2⟩ : CcBox Nat).weak ∧
    CcDropSpec (⟨some 5, 2, 2⟩ : CcBox Nat) :=
  ⟨by decide, by decide, cc_drop_ordered ⟨some 5, 2, 2⟩ (by decide) (by decide)⟩

/-- Claim C2: in every state reachable by a sequence of
new/clone/downgrade/upgrade/drop operations on the block, the weak counter
is at least `1` while the strong counter is positive (the implicit weak
unit); and the deallocation branch of a weak handle's drop (current
`weak = 1` while a weak handle is live, so the decrement reaches `0`) can
only be taken once the strong counter is `0`, the payload is already gone,
and the implicit weak has been released (`weak` counts exactly the live
weak handles). -/
theorem reachable_weak_invariant {T : Type} (v : T) (ops : List Op)
    (s : HeapSt T) (b : CcBox T) (hrun : runOps (initSt v) ops = some s)
    (hb : s.block = some b) :
    (0 < b.strong → 1 ≤ b.weak) ∧
    (1 ≤ s.nWeak → b.weak = 1 →
      b.strong = 0 ∧ b.value = none ∧ b.weak = s.nWeak) := by
  have hInv := blockInv_runOps (blockInv_initSt v) hrun
  obtain ⟨ob, ns, nw⟩ := s
  cases ob with
  | none => exact Option.noConfusion hb
  | some b0 =>
    simp only [Option.some.injEq] at hb
    subst hb
    obtain ⟨bv, bs, bw⟩ := b0
    simp only [BlockInv] at hInv
    obtain ⟨h1, h2, h3, h4⟩ := hInv
    show (0 < bs → 1 ≤ bw) ∧ (1 ≤ nw → bw = 1 → bs = 0 ∧ bv = none ∧ bw = nw)
    refine ⟨fun hpos => by split at h2 <;> omega, fun hnw hw1 => ?_⟩
    have hbs : bs = 0 := by split at h2 <;> omega
    have hbv : bv = none := by cases bv <;> simp_all
    exact ⟨hbs, hbv, by split at h2 <;> omega⟩

/-- Witness for `reachable_weak_invariant`: after `downgrade` then dropping
the strong handle, the block survives for the weak handle with
`strong = 0`, `weak = 1`, payload destroyed. -/
theorem reachable_weak_invariant_witness :
    (0 < (⟨none, 0, 1⟩ : CcBox Nat).strong → 1 ≤ (⟨none, 0, 1⟩ : CcBox Nat).weak) ∧
    (1 ≤ (1 : Nat) → (⟨none, 0, 1⟩ : CcBox Nat).weak = 1 →
      (⟨none, 0, 1⟩ : CcBox Nat).strong = 0 ∧
      (⟨none, 0, 1⟩ : CcBox Nat).value = none ∧
      (⟨none, 0, 1⟩ : CcBox Nat).weak = 1) :=
  reachable_weak_invariant (5 : Nat) [Op.downgrade, Op.dropStrong]
    ⟨some ⟨none, 0, 1⟩, 0, 1⟩ ⟨none, 0, 1⟩ rfl rfl

/-- Claim C3: for a weak handle to a live block, `upgrade` returns `None`
exactly when the strong counter is `0` at the moment of the call (the test
is a pure function of the current counter, hence re-performed at each
call); otherwise it increments the strong counter by exactly one and
returns a strong handle to the same block. -/
theorem upgrade_none_iff {T : Type} (b : CcBox T) (hw : 1 ≤ b.weak) :
    UpgradeSpec b := by
  obtain ⟨bv, bs, bw⟩ := b
  by_cases hbs : bs = 0
  · subst hbs
    simp [UpgradeSpec, Weak.upgrade, CcBox.strongCnt]
  · simp [UpgradeSpec, Weak.upgrade, CcBox.strongCnt, hbs, CcBox.inc_strong]

/-- Witness for `upgrade_none_iff` at a live block with one weak handle. -/
theorem upgrade_none_iff_witness :
    1 ≤ (⟨some 5, 1, 2⟩ : CcBox Nat).weak ∧ UpgradeSpec (⟨some 5, 1, 2⟩ : CcBox Nat) :=
  ⟨by decide, upgrade_none_iff ⟨some 5, 1, 2⟩ (by decide)⟩

/-- Claim C4: `is_unique` holds iff `strong_count = 1` and `weak_count = 0`,
where `strong_count` is the raw strong counter and `weak_count` is the raw
weak counter minus one (the implicit weak unit). -/
theorem is_unique_iff {T : Type} (b : CcBox T) (hw : 1 ≤ b.weak) :
    (is_unique b = true ↔ strong_count b = 1 ∧ weak_count b = 0) ∧
    strong_count b = b.strong ∧ weak_count b = b.weak - 1 := by
  refine ⟨?_, rfl, rfl⟩
  simp [is_unique, and_comm]

/-- Witness for `is_unique_iff` at a freshly constructed block. -/
theorem is_unique_iff_witness :
    1 ≤ (⟨some 5, 1, 1⟩ : CcBox Nat).weak ∧
    ((is_unique (⟨some 5, 1, 1⟩ : CcBox Nat) = true ↔
        strong_count (⟨some 5, 1, 1⟩ : CcBox Nat) = 1 ∧
        weak_count (⟨some 5, 1, 1⟩ : CcBox Nat) = 0) ∧
      strong_count (⟨some 5, 1, 1⟩ : CcBox Nat) = (⟨some 5, 1, 1⟩ : CcBox Nat).strong ∧
      weak_count (⟨some 5, 1, 1⟩ : CcBox Nat) = (⟨some 5, 1, 1⟩ : CcBox Nat).weak - 1) :=
  ⟨by decide, is_unique_iff ⟨some 5, 1, 1⟩ (by decide)⟩

/-- Claim C5: `try_unwrap` on a unique handle returns `Ok` with the payload
and deallocates the block, bypassing the normal drop (the payload escapes
alive instead of being destroyed); on a non-unique handle it returns `Err`
with the original handle and the block — counters included — unchanged. -/
theorem try_unwrap_spec {T : Type} (b : CcBox T) (v : T) (hv : b.value = some v) :
    TryUnwrapSpec b v := by
  constructor
  · intro hu
    simp [try_unwrap, hu, hv]
  · intro hu
    simp [try_unwrap, hu]

/-- Witness for `try_unwrap_spec` at a unique handle holding `3`, matching
the library's own doc test `try_unwrap(Cc::new(3)) == Ok(3)`. -/
theorem try_unwrap_spec_witness :
    (⟨some 3, 1, 1⟩ : CcBox Nat).value = some 3 ∧
    TryUnwrapSpec (⟨some 3, 1, 1⟩ : CcBox Nat) 3 :=
  ⟨by decide, try_unwrap_spec ⟨some 3, 1, 1⟩ 3 (by decide)⟩

/-- Claim C6: `make_unique` on a non-unique handle leaves the handle
referring to a freshly allocated block with `strong = 1`, `weak = 1` and a
duplicate of the payload; mutating through the returned reference writes
only that fresh block, and every sibling strong handle made before the call
(present exactly when `2 ≤ strong`) still observes the original payload,
which survives in the original block with only its strong counter
decremented by the replaced handle's drop. -/
theorem make_unique_cow {T : Type} (b : CcBox T) (v : T) (hv : b.value = some v)
    (hnu : is_unique b = false) : MakeUniqueSpec b v := by
  obtain ⟨bv, bs, bw⟩ := b
  simp only at hv
  subst hv
  refine ⟨?_, ?_, ?_⟩
  · simp [make_unique, hnu]
  · intro v'
    simp [make_unique, hnu, setValue]
  · intro hs2
    have hs2' : 2 ≤ bs := hs2
    have h0 : ¬(bs - 1 = 0) := by omega
    simp [make_unique, hnu, Cc.drop_if_form, h0]

/-- Witness for `make_unique_cow` at a block shared by two strong handles. -/
theorem make_unique_cow_witness :
    (⟨some 75, 2, 1⟩ : CcBox Nat).value = some 75 ∧
    is_unique (⟨some 75, 2, 1⟩ : CcBox Nat) = false ∧
    MakeUniqueSpec (⟨some 75, 2, 1⟩ : CcBox Nat) 75 :=
  ⟨by decide, by decide, make_unique_cow ⟨some 75, 2, 1⟩ 75 (by decide) (by decide)⟩

/-- Claim C7: `new(v)` allocates a fresh block with `strong = 1`, `weak = 1`
(the implicit weak) holding `v`; the new handle satisfies
`strong_count = 1`, `weak_count = 0` and `is_unique`. -/
theorem new_spec {T : Type} (v : T) :
    Cc.new v = { value := some v, strong := 1, weak := 1 } ∧
    (Cc.new v).value = some v ∧
    strong_count (Cc.new v) = 1 ∧
    weak_count (Cc.new v) = 0 ∧
    is_unique (Cc.new v) = true :=
  ⟨rfl, rfl, rfl, rfl, rfl⟩

/-- Claim C9: the introspection operations are pure observers — a call to
`strong_count`, `weak_count` or `is_unique` returns its reading and leaves
the block (both counters and the payload) exactly as it was. -/
theorem observers_frame {T : Type} (b : CcBox T) :
    (strong_countCall b).2 = b ∧
    (weak_countCall b).2 = b ∧
    (is_uniqueCall b).2 = b ∧
    (strong_countCall b).1 = strong_count b ∧
    (weak_countCall b).1 = weak_count b ∧
    (is_uniqueCall b).1 = is_unique b :=
  ⟨rfl, rfl, rfl, rfl, rfl, rfl⟩

/-- Claim C10: producing a handle and immediately dropping it restores both
counters exactly, destroying and deallocating nothing: clone then drop the
clone, downgrade then drop the weak handle, and (successful) upgrade then
drop the produced strong handle all return the block unchanged. -/
theorem handle_round_trip {T : Type} (b : CcBox T) (hs : 1 ≤ b.strong)
    (hw : 1 ≤ b.weak) : RoundTripSpec b := by
  obtain ⟨bv, bs, bw⟩ := b
  have hs' : 1 ≤ bs := hs
  have hw' : 1 ≤ bw := hw
  have h3 : ¬(bs = 0) := by omega
  have h4 : ¬(bw = 0) := by omega
  refine ⟨?_, ?_, ?_, ?_⟩
  · rw [Cc.clone, CcBox.inc_strong, Cc.drop_if_form]
    simp [h3]
  · rw [Cc.downgrade, CcBox.inc_weak, Weak.dropw_if_form]
    simp [h4]
  · simp [Weak.upgrade, CcBox.strongCnt, h3]
  · simp [Weak.upgrade, CcBox.strongCnt, h3, CcBox.inc_strong]
    rw [Cc.drop_if_form]
    simp [h3]

/-- Witness for `handle_round_trip` at a fresh block. -/
theorem handle_round_trip_witness :
    1 ≤ (⟨some 7, 1, 1⟩ : CcBox Nat).strong ∧
    1 ≤ (⟨some 7, 1, 1⟩ : CcBox Nat).weak ∧
    RoundTripSpec (⟨some 7, 1, 1⟩ : CcBox Nat) :=
  ⟨by decide, by decide, handle_round_trip ⟨some 7, 1, 1⟩ (by decide) (by decide)⟩

/-- Claim C8: along every admissible operation sequence on the block, the
payload is destroyed in a step exactly when the strong counter goes from
`1` to `0` in that step, the block is deallocated in a step exactly when
the weak counter goes from `1` to `0` in that step, destruction is
irreversible and deallocation terminal (so each happens at most once), and
a deallocating step either starts with the payload already destroyed or is
itself the strong-`1`-to-`0` step, inside which `Cc::drop` performs
destruction strictly before deallocation (`cc_drop_ordered`). -/
theorem lifecycle_reachable {T : Type} (v : T) (ops : List Op)
    (s s' : HeapSt T) (op : Op) (hrun : runOps (initSt v) ops = some s)
    (hstep : stepOp s op = some s') : LifecycleSpec s s' :=
  lifecycleSpec_stepOp (blockInv_runOps (blockInv_initSt v) hrun) hstep

/-- Witness for `lifecycle_reachable`: dropping the only strong handle of a
fresh block destroys the payload and deallocates in that very step. -/
theorem lifecycle_reachable_witness :
    LifecycleSpec (initSt (5 : Nat)) ⟨none, 0, 0⟩ :=
  lifecycle_reachable (5 : Nat) [] (initSt 5) ⟨none, 0, 0⟩ Op.dropStrong rfl rfl
